import Mathlib

/-!
Verification of the Myrient-Search ingestion pipeline against its
natural-language specification.

The definitions below are a shallow embedding of the JavaScript source:
  * `backend/pipeline.js`  — filename parser, non-game filter, batched DB
    upsert, crawler flush decision, stale-URL pruning, enrich normalization,
    orchestrator terminal-state logic (src/unnamed/part_010);
  * `backend/db.js`        — games-table schema (src/unnamed/part_010, tail);
  * `backend/scheduler.js` — cron config handling (src/backend/myrient_scraper.js, tail);
  * `backend/routes/admin.js` — pipeline start route.

Strings handled character-wise are modelled as `List Char`.  JavaScript
`toLowerCase` is modelled on the ASCII range (every vocabulary constant in
the source is ASCII).  JavaScript numbers are modelled as `ℚ` (exact
arithmetic); `toFixed(2)` followed by unary `+` is modelled as rounding to
the nearest multiple of 1/100, ties towards +∞, which is the ECMA-262
`toFixed` tie rule.
-/

/-- Characters of the JavaScript `\s` class (as used by `String.trim` and
the regex `\s*\(`), restricted to the code points the engine treats as
whitespace. -/
def isWsJs (c : Char) : Bool :=
  c.toNat = 9 || c.toNat = 10 || c.toNat = 11 || c.toNat = 12 || c.toNat = 13 ||
  c.toNat = 32 || c.toNat = 0xa0 || c.toNat = 0x1680 ||
  (0x2000 ≤ c.toNat && c.toNat ≤ 0x200a) ||
  c.toNat = 0x2028 || c.toNat = 0x2029 || c.toNat = 0x202f ||
  c.toNat = 0x205f || c.toNat = 0x3000 || c.toNat = 0xfeff

/-- JavaScript `String.prototype.trim`. -/
def jsTrim (s : List Char) : List Char :=
  ((s.dropWhile isWsJs).reverse.dropWhile isWsJs).reverse

/-- JavaScript `String.prototype.toLowerCase`, ASCII range. -/
def asciiLower (c : Char) : Char :=
  if 'A' ≤ c ∧ c ≤ 'Z' then Char.ofNat (c.toNat + 32) else c

/-- Lowercase a whole string (`filename.toLowerCase()`). -/
def lowerStr (s : List Char) : List Char := s.map asciiLower

/-- The characters matched by the regex character class `[\[(]`
(tag opener, pipeline.js line 166). -/
def isOpenB (c : Char) : Bool := c = '(' || c = '['

/-- The characters matched by the regex character class `[\])]`
(tag closer, pipeline.js line 166). -/
def isCloseB (c : Char) : Bool := c = ')' || c = ']'

/-- The characters matched by the regex metacharacter `.` in JavaScript
(everything except the four line terminators). -/
def isDotB (c : Char) : Bool :=
  !(c.toNat = 10 || c.toNat = 13 || c.toNat = 0x2028 || c.toNat = 0x2029)

/-- Text after the last `/` (Node `path.parse` basename step). -/
def afterLastSlash (s : List Char) : List Char :=
  (s.reverse.takeWhile (fun c => c ≠ '/')).reverse

/-- Index of the last `.` in a string, if any. -/
def lastDotIdx : List Char → Option Nat
  | [] => none
  | c :: rest =>
    match lastDotIdx rest with
    | some i => some (i + 1)
    | none => if c = '.' then some 0 else none

/-- Node `path.parse(filename).name`: the basename with its extension
stripped.  Node keeps the whole basename when it has no dot, when its only
relevant dot is the leading character (dotfiles), or when it is exactly
`..`. -/
def stripExt (s : List Char) : List Char :=
  let base := afterLastSlash s
  match lastDotIdx base with
  | none => base
  | some 0 => base
  | some i => if base = ['.', '.'] then base else base.take i

/-- Does the string start with optional `\s*` whitespace followed by `(`?
This is exactly when the first alternative of the split regex
`/\s*\(|\[/` (pipeline.js line 163) matches at the current position. -/
def wsThenParen : List Char → Bool
  | [] => false
  | c :: rest => if c = '(' then true else if isWsJs c then wsThenParen rest else false

/-- The first piece of `nameNoExt.split(/\s*\(|\[/, 1)`: everything before
the leftmost position where the split regex matches. -/
def splitBase : List Char → List Char
  | [] => []
  | c :: rest =>
    if c = '[' then []
    else if wsThenParen (c :: rest) then []
    else c :: splitBase rest

/-- Non-greedy completion of a tag match: after an opener, the regex
`(.*?)[\])]` consumes characters up to the nearest closer; line
terminators abort the match (they are not matched by `.`).  Returns the
captured content and the remainder after the closer. -/
def grabContent : List Char → List Char → Option (List Char × List Char)
  | [], _ => none
  | c :: rest, acc =>
    if isCloseB c then some (acc.reverse, rest)
    else if isDotB c then grabContent rest (c :: acc)
    else none

/-- Leftmost match of the tag regex `[\[(](.*?)[\])]`: returns the captured
group and the remainder of the string after the match. -/
def findTagMatch : List Char → Option (List Char × List Char)
  | [] => none
  | c :: rest =>
    if isOpenB c then
      match grabContent rest [] with
      | some (content, rest') => some (content, rest')
      | none => findTagMatch rest
    else findTagMatch rest

/-- One pass of the `tagRegex.exec` loop collecting all (trimmed) tag
captures, fuel-indexed so that the recursion is structural.  `fuel`
strictly larger than the string length always suffices
(`findTagMatch_shrink`). -/
def scanTagsF : Nat → List Char → List (List Char)
  | 0, _ => []
  | fuel + 1, s =>
    match findTagMatch s with
    | none => []
    | some (content, rest) => jsTrim content :: scanTagsF fuel rest

/-- All (trimmed) captures of `[\[(](.*?)[\])]` over the string, in order
(pipeline.js lines 166-176, the `tags` array). -/
def scanTags (s : List Char) : List (List Char) := scanTagsF (s.length + 1) s

/-- The 28-entry region vocabulary (pipeline.js lines 106-135). -/
def REGIONS : List (List Char) :=
  ["usa".data, "japan".data, "europe".data, "world".data, "asia".data,
   "australia".data, "brazil".data, "canada".data, "china".data,
   "denmark".data, "finland".data, "france".data, "germany".data,
   "greece".data, "hong kong".data, "israel".data, "italy".data,
   "korea".data, "netherlands".data, "norway".data, "poland".data,
   "portugal".data, "russia".data, "spain".data, "sweden".data,
   "taiwan".data, "uk".data, "united kingdom".data]

/-- `tag.split(/[,+]/)` — split on every comma or plus, keeping empty
pieces exactly as JavaScript does. -/
def splitCommaPlus : List Char → List (List Char)
  | [] => [[]]
  | c :: rest =>
    if c = ',' || c = '+' then [] :: splitCommaPlus rest
    else
      match splitCommaPlus rest with
      | p :: ps => (c :: p) :: ps
      | [] => [[c]]

/-- Region classification of one tag (pipeline.js lines 172-174): split on
`,`/`+`, trim and lowercase each piece, and test whether at least half of
the pieces are in the region vocabulary.  The JavaScript float comparison
`count / parts.length >= 0.5` is exact for these magnitudes and equals
`2 * count ≥ parts.length`. -/
def isRegionTagB (tag : List Char) : Bool :=
  let parts := (splitCommaPlus tag).map (fun s => lowerStr (jsTrim s))
  2 * (parts.filter (fun p => REGIONS.contains p)).length ≥ parts.length

/-- Fuel-indexed rendering of the `while ((m = tagRegex.exec(..)))` loop of
`parseFilename` (pipeline.js lines 167-176): collects the trimmed tags in
order and threads the write-once `region` variable. -/
def parseLoopF : Nat → List Char → List Char → List (List Char) × List Char
  | 0, _, region => ([], region)
  | fuel + 1, s, region =>
    match findTagMatch s with
    | none => ([], region)
    | some (content, rest) =>
      let tag := jsTrim content
      let region' := if region = [] then (if isRegionTagB tag then tag else region) else region
      let res := parseLoopF fuel rest region'
      (tag :: res.1, res.2)

/-- Result record of `parseFilename` (pipeline.js line 177). -/
structure Parsed where
  base_name : List Char
  tags : List (List Char)
  region : List Char
deriving DecidableEq, Repr

/-- `parseFilename` (pipeline.js lines 161-178): strip the extension
(`path.parse(filename).name`), take the base name as the first piece of
`split(/\s*\(|\[/, 1)` trimmed, and run the tag/region loop. -/
def parseFilename (filename : List Char) : Parsed :=
  let nameNoExt := stripExt filename
  let res := parseLoopF (nameNoExt.length + 1) nameNoExt []
  { base_name := jsTrim (splitBase nameNoExt), tags := res.1, region := res.2 }

/-- Non-greedy same-kind completion used by the claim-side reading of the
tag rule: after an opener, take everything up to the nearest closer of the
SAME kind. -/
def grabSame (close : Char) : List Char → List Char → Option (List Char × List Char)
  | [], _ => none
  | c :: rest, acc =>
    if c = close then some (acc.reverse, rest) else grabSame close rest (c :: acc)

/-- Claim-side tag extraction, formalising the claim wording "the ordered
list of the substrings enclosed between matching `(…)`/`[…]` pairs":
a tag opens at `(` and closes at the nearest following `)`, or opens at `[`
and closes at the nearest following `]`; the enclosed substring is kept
verbatim. -/
def claimTagsF : Nat → List Char → List (List Char)
  | 0, _ => []
  | fuel + 1, s =>
    match s with
    | [] => []
    | c :: rest =>
      if c = '(' then
        match grabSame ')' rest [] with
        | some (content, rest') => content :: claimTagsF fuel rest'
        | none => claimTagsF fuel rest
      else if c = '[' then
        match grabSame ']' rest [] with
        | some (content, rest') => content :: claimTagsF fuel rest'
        | none => claimTagsF fuel rest
      else claimTagsF fuel rest

/-- Claim-side tag extraction over a whole string. -/
def claimTags (s : List Char) : List (List Char) := claimTagsF (s.length + 1) s

/-- Is `p` a contiguous substring of `s` (JavaScript `String.includes`)? -/
def hasSub (p s : List Char) : Bool :=
  match s with
  | [] => p.isEmpty
  | _ :: t => p.isPrefixOf s || hasSub p t

/-- Does `s` end with `p` (JavaScript `String.endsWith`)? -/
def endsWithL (p s : List Char) : Bool := p.isSuffixOf s

/-- The non-game filter `isGameForIGDB` (pipeline.js lines 26-42).
`nonGameTerms` is the vocabulary loaded from `data/nonGameTerms.json`,
already lowercased as at module load (line 24); the data file itself is
not part of the sources, so the vocabulary is a parameter.  Returns `true`
when the filename looks like an actual game (eligible for enrichment). -/
def isGameForIGDB (nonGameTerms : List (List Char)) (filename : List Char) : Bool :=
  if filename = [] then false
  else
    let lowerFileName := lowerStr filename
    !(nonGameTerms.any (fun term =>
        endsWithL ('.' :: term) lowerFileName ||
        (hasSub ('(' :: (term ++ [')'])) lowerFileName ||
         hasSub ('[' :: (term ++ [']'])) lowerFileName) ||
        endsWithL (' ' :: term) lowerFileName))

/-- The ineligibility condition exactly as the claim words it: after
lowercasing, some vocabulary term is the extension, appears as a
`(term)`/`[term]` tag, or ends the filename after a space. -/
def claimIneligible (nonGameTerms : List (List Char)) (filename : List Char) : Prop :=
  ∃ term ∈ nonGameTerms,
    endsWithL ('.' :: term) (lowerStr filename) = true ∨
    hasSub ('(' :: (term ++ [')'])) (lowerStr filename) = true ∨
    hasSub ('[' :: (term ++ [']'])) (lowerStr filename) = true ∨
    endsWithL (' ' :: term) (lowerStr filename) = true

/-- A stored row of the `games` table (db.js schema): identity and crawl
fields plus the nullable enrichment fields and `created_at`. -/
structure GameRow where
  id : Nat
  game_name : String
  filename : String
  platform : String
  group_name : String
  region : String
  size : String
  download_url : String
  tags : List String
  description : Option String
  rating : Option ℚ
  release_date : Option String
  developer : Option String
  publisher : Option String
  genre : Option String
  images : List String
  created_at : Nat
deriving DecidableEq, Repr

/-- A record handed to `batchUpsert` by the crawler (pipeline.js lines
445-454): the eight inserted columns. -/
structure GameRecord where
  game_name : String
  filename : String
  platform : String
  group_name : String
  region : String
  size : String
  download_url : String
  tags : List String
deriving DecidableEq, Repr

/-- The `ON CONFLICT (download_url) DO UPDATE SET` clause of `batchUpsert`
(pipeline.js lines 201-203): only `game_name`, `platform`, `group_name`,
`region`, `size` and `tags` are overwritten from the excluded row. -/
def applyConflictUpdate (r : GameRow) (g : GameRecord) : GameRow :=
  { r with
    game_name := g.game_name
    platform := g.platform
    group_name := g.group_name
    region := g.region
    size := g.size
    tags := g.tags }

/-- The freshly inserted row for a non-conflicting record: enrichment
fields default to NULL, `images` to `{}`, `id` is assigned by the serial
sequence and `created_at` by `NOW()` (db.js lines 591-609). -/
def insertRow (g : GameRecord) (newId now : Nat) : GameRow :=
  { id := newId, game_name := g.game_name, filename := g.filename,
    platform := g.platform, group_name := g.group_name, region := g.region,
    size := g.size, download_url := g.download_url, tags := g.tags,
    description := none, rating := none, release_date := none,
    developer := none, publisher := none, genre := none, images := [],
    created_at := now }

/-- Upsert of a single record against the table: Postgres either updates
the (unique-key) conflicting row in place or appends a new row. -/
def upsertOne (st : List GameRow × Nat) (now : Nat) (g : GameRecord) : List GameRow × Nat :=
  if st.1.any (fun r => decide (r.download_url = g.download_url)) then
    (st.1.map (fun r =>
       if r.download_url = g.download_url then applyConflictUpdate r g else r),
     st.2)
  else (st.1 ++ [insertRow g st.2 now], st.2 + 1)

/-- `batchUpsert(games)` (pipeline.js lines 181-208): one statement
processing the batch records in order against the table.  The state is the
table contents plus the next serial id. -/
def batchUpsert (st : List GameRow × Nat) (now : Nat) : List GameRecord → List GameRow × Nat
  | [] => st
  | g :: gs => batchUpsert (upsertOne st now g) now gs

/-- The projection `RETURNING id, game_name, description, filename` of
`batchUpsert`, as consumed by `flushBuffer`. -/
structure ReturnedRow where
  id : Nat
  game_name : String
  description : Option String
  filename : String
deriving DecidableEq, Repr

/-- JavaScript truthiness test `!x` for a nullable string column: `null`
and the empty string are both falsy. -/
def jsStrFalsy : Option String → Bool
  | none => true
  | some s => s == ""

/-- The enrichment decision taken by `flushBuffer` for one returned row
(pipeline.js lines 387-394): push to the enrichment queue iff
`(mode === "clean" || !row.description) && isGameForIGDB(row.filename)`. -/
def shouldEnrich (nonGameTerms : List (List Char)) (mode : String) (row : ReturnedRow) : Bool :=
  (mode == "clean" || jsStrFalsy row.description) &&
    isGameForIGDB nonGameTerms row.filename.data

/-- The partition `flushBuffer` computes over the rows returned by
`batchUpsert` (pipeline.js lines 385-395): enrichment-queue entries
`{id, game_name}` versus `alreadyEnrichedIds`. -/
def flushPartition (nonGameTerms : List (List Char)) (mode : String)
    (rows : List ReturnedRow) : List (Nat × String) × List Nat :=
  (rows.filterMap (fun row =>
     if shouldEnrich nonGameTerms mode row then some (row.id, row.game_name) else none),
   rows.filterMap (fun row =>
     if shouldEnrich nonGameTerms mode row then none else some row.id))

/-- Database effects of the stale-pruning step, recorded so that "no read
and no delete is issued" is expressible. -/
inductive PruneAction
  | selectAllUrls
  | deleteUrls (urls : List String)
deriving DecidableEq, Repr

/-- The stale-URL pruning step at the end of `crawl` (pipeline.js lines
487-499): only in incremental mode, only when at least one file URL was
seen and the run was not cancelled, read all stored URLs, compute the
stale ones and delete them (when any).  Returns the resulting table and
the list of issued database actions. -/
def pruneStale (mode : String) (seenUrls : List String) (cancelled : Bool)
    (table : List GameRow) : List GameRow × List PruneAction :=
  if mode = "incremental" ∧ seenUrls ≠ [] ∧ cancelled = false then
    let stored := table.map (fun r => r.download_url)
    let stale := stored.filter (fun u => !seenUrls.contains u)
    if stale ≠ [] then
      (table.filter (fun r => !stale.contains r.download_url),
       [PruneAction.selectAllUrls, PruneAction.deleteUrls stale])
    else (table, [PruneAction.selectAllUrls])
  else (table, [])

/-- Pipeline status values (pipeline.js line 67 and §3 of the spec). -/
inductive Status
  | idle
  | running
  | done
  | error
deriving DecidableEq, Repr

/-- The observable pipeline state fields involved in cancellation
(pipeline.js lines 66-79). -/
structure PipelineSt where
  status : Status
  mode : String
  cancelled : Bool
  endedAt : Option String
deriving DecidableEq, Repr

/-- `stopPipeline` (pipeline.js lines 566-571): set the `cancelled` flag,
but only when a run is in progress. -/
def stopPipeline (s : PipelineSt) : PipelineSt :=
  if s.status = Status.running then { s with cancelled := true } else s

/-- The terminal-state assignment of `runPipeline` (pipeline.js lines
549-563): when the joined crawler/worker tasks complete without an
uncaught exception the status becomes `idle` if `cancelled` was set and
`done` otherwise; an uncaught exception yields `error`.  `endedAt` is
recorded in every branch. -/
def finishRun (s : PipelineSt) (tasksResult : Except String Unit) (now : String) : PipelineSt :=
  match tasksResult with
  | Except.ok _ =>
    { s with
      status := if s.cancelled then Status.idle else Status.done
      endedAt := some now }
  | Except.error _ =>
    { s with status := Status.error, endedAt := some now }

/-- Persisted scheduler configuration (scheduler.js line 326). -/
structure SchedConfig where
  enabled : Bool
  mode : String
  expression : String
deriving DecidableEq, Repr

/-- `DEFAULT_CONFIG` (scheduler.js line 326). -/
def DEFAULT_CONFIG : SchedConfig :=
  { enabled := false, mode := "incremental", expression := "" }

/-- A caller-supplied partial configuration, as spread over
`DEFAULT_CONFIG` by `applyConfig` (scheduler.js line 375). -/
structure ConfigPatch where
  enabled : Option Bool
  mode : Option String
  expression : Option String
deriving DecidableEq, Repr

/-- `{ ...DEFAULT_CONFIG, ...config }`: fields present in the patch win. -/
def mergeConfig (patch : ConfigPatch) : SchedConfig :=
  { enabled := patch.enabled.getD DEFAULT_CONFIG.enabled,
    mode := patch.mode.getD DEFAULT_CONFIG.mode,
    expression := patch.expression.getD DEFAULT_CONFIG.expression }

/-- Scheduler module state: the persisted config file (absent before the
first save) and the currently scheduled job, carrying the expression and
mode it was started with (scheduler.js `currentTask`). -/
structure SchedState where
  savedConfig : Option SchedConfig
  currentTask : Option (String × String)
deriving DecidableEq, Repr

/-- `start()` (scheduler.js lines 342-365): stop any existing job, reload
the persisted config, and schedule a new job when the config is enabled,
has a non-empty expression and the expression validates.  `valid` models
`cron.validate` of the external node-cron library. -/
def schedStart (valid : String → Bool) (st : SchedState) : SchedState :=
  let cfg := st.savedConfig.getD DEFAULT_CONFIG
  let stopped : SchedState := { st with currentTask := none }
  if cfg.enabled = true ∧ cfg.expression ≠ "" then
    if valid cfg.expression then
      { stopped with currentTask := some (cfg.expression, cfg.mode) }
    else stopped
  else stopped

/-- `applyConfig(config)` (scheduler.js lines 374-383): merge over the
defaults, reject a non-empty invalid cron expression by throwing BEFORE
any mutation, otherwise persist the merged config and restart the job.
The returned pair is (thrown-or-returned value, scheduler state after the
call). -/
def applyConfig (valid : String → Bool) (patch : ConfigPatch) (st : SchedState) :
    Except String SchedConfig × SchedState :=
  let merged := mergeConfig patch
  if merged.expression ≠ "" ∧ valid merged.expression = false then
    (Except.error ("Invalid cron expression: " ++ merged.expression), st)
  else
    (Except.ok merged, schedStart valid { st with savedConfig := some merged })

/-- Request body of `POST /admin/pipeline/start`; `mode` is `none` when the
field is absent or not a string (strict `===` against a string literal
fails for every non-string value). -/
structure StartBody where
  mode : Option String
deriving DecidableEq, Repr

/-- Responses of the start route. -/
inductive StartResponse
  | started (mode : String)
  | conflict (msg : String)
deriving DecidableEq, Repr

/-- `req.body?.mode`: optional chaining over a possibly absent body. -/
def reqMode (body : Option StartBody) : Option String :=
  body.bind (fun b => b.mode)

/-- The `POST /admin/pipeline/start` handler (admin.js lines 73-81): 409
when a run is already in progress, otherwise start with
`mode = req.body?.mode === "clean" ? "clean" : "incremental"`. -/
def pipelineStartRoute (running : Bool) (body : Option StartBody) : StartResponse :=
  if running then StartResponse.conflict ("Pipeline already running")
  else StartResponse.started
    (if reqMode body = some ("clean") then "clean" else "incremental")

/-- Rounding of `+(x).toFixed(2)` for exact rationals: the nearest multiple
of 1/100, ties towards the larger value (ECMA-262 `Number.prototype.toFixed`). -/
def round2 (q : ℚ) : ℚ := ((⌊q * 100 + 1 / 2⌋ : ℤ) : ℚ) / 100

/-- A provider hit as consumed by `extractIGDB` (fields of the IGDB
multiquery result, pipeline.js lines 257-258): `involved_companies` is
flattened to the company names, `cover`/`screenshots` to their `url`
fields, and `first_release_date` is kept as epoch seconds. -/
structure IGDBHit where
  summary : Option String
  rating : Option ℚ
  first_release_date : Option Int
  involved_companies : List String
  genres : List String
  cover : Option String
  screenshots : List String
deriving DecidableEq, Repr

/-- The update object built by `extractIGDB`; a `none` field is absent from
the object (it is skipped by the `UPDATE ... SET` loop).  `images` is `[]`
when absent. -/
structure IGDBUpd where
  description : Option String
  rating : Option ℚ
  release_date : Option Int
  developer : Option String
  publisher : Option String
  genre : Option String
  images : List (List Char)
deriving DecidableEq, Repr

/-- Replace the first occurrence of `pat` by `rep`
(JavaScript `String.prototype.replace` with a string pattern). -/
def replaceFirst (s pat rep : List Char) : List Char :=
  match s with
  | [] => if pat.isEmpty then rep else []
  | c :: rest =>
    if pat.isPrefixOf s then rep ++ s.drop pat.length
    else c :: replaceFirst rest pat rep

/-- The image-URL fixup of `extractIGDB` (pipeline.js lines 294-295):
prepend `https:` to protocol-relative URLs and upgrade the first
`t_thumb` to `t_1080p`. -/
def fixUrl (u : List Char) : List Char :=
  replaceFirst (if ['/', '/'].isPrefixOf u then "https:".data ++ u else u)
    ("t_thumb".data) ("t_1080p".data)

/-- `extractIGDB(d)` (pipeline.js lines 283-301).  Each guard mirrors the
JavaScript truthiness test on the provider field: empty-string `summary`
and `cover.url` are falsy, epoch second 0 is falsy, `rating` is checked
against null only.  `developer` and `publisher` both receive the first
involved company.  The rendering of `release_date` epoch seconds into an
ISO date string is presentation-only and kept as the raw seconds here. -/
def extractIGDB (d : IGDBHit) : IGDBUpd :=
  { description :=
      match d.summary with
      | some s => if s = "" then none else some s
      | none => none
    rating :=
      match d.rating with
      | some r => some (round2 (r / 20))
      | none => none
    release_date :=
      match d.first_release_date with
      | some t => if t = 0 then none else some t
      | none => none
    developer := d.involved_companies.head?
    publisher := d.involved_companies.head?
    genre :=
      if d.genres = [] then none
      else some (String.intercalate (", ") d.genres)
    images :=
      (match d.cover with
       | some u => if u = "" then [] else [fixUrl u.data]
       | none => []) ++ (d.screenshots.take 3).map (fun s => fixUrl s.data) }

/-- Concrete non-game vocabulary used by the C1 evaluation. -/
def termsC1 : List (List Char) := ["manual".data, "bios".data]

/-- Concrete `batchUpsert`-returned row carrying the empty-string
"enrichment attempted, no hit" sentinel (written by the enrich worker,
pipeline.js line 335). -/
def rowC1 : ReturnedRow :=
  { id := 5, game_name := "Mario", description := some (""),
    filename := "Mario (USA).nes" }

/-- Concrete pre-seeded table row with enrichment data, for C2. -/
def rowC2 : GameRow :=
  { id := 7, game_name := "Old Title", filename := "Old Title (Europe).nes",
    platform := "NES", group_name := "No-Intro", region := "Europe",
    size := "40 KB", download_url := "https:files/old.nes",
    tags := ["Europe"], description := some ("lore"), rating := some (41 / 10),
    release_date := some ("1999-01-01"), developer := some ("Dev"),
    publisher := some ("Pub"), genre := some ("RPG"),
    images := ["https:img/1.png"], created_at := 99 }

/-- Concrete crawler record conflicting with `rowC2` on `download_url`
but carrying a different `region`, for C2. -/
def recC2 : GameRecord :=
  { game_name := "Old Title", filename := "Old Title (USA).nes",
    platform := "NES", group_name := "No-Intro", region := "USA",
    size := "41 KB", download_url := "https:files/old.nes", tags := ["USA"] }

/-- Concrete non-game vocabulary used by the C5 counterexample. -/
def termsC5 : List (List Char) := ["manual".data]

/-- Concrete running pipeline state, for C6. -/
def stC6 : PipelineSt :=
  { status := Status.running, mode := "incremental", cancelled := false,
    endedAt := none }

/-- Concrete cron validator rejecting everything, standing in for
`cron.validate` on an invalid expression, for C7. -/
def validC7 : String → Bool := fun _ => false

/-- Concrete configuration patch with a non-empty (invalid) expression,
for C7. -/
def patchC7 : ConfigPatch :=
  { enabled := some true, mode := some ("clean"),
    expression := some ("every fortnight") }

/-- Concrete scheduler state with a persisted config and a live job,
for C7. -/
def stC7 : SchedState :=
  { savedConfig := some { enabled := true, mode := "incremental",
                          expression := "0 3 * * *" },
    currentTask := some ("0 3 * * *", "incremental") }

/-- Concrete provider hit carrying only a rating, for C8. -/
def hitC8 : IGDBHit :=
  { summary := none, rating := some 83, first_release_date := none,
    involved_companies := [], genres := [], cover := none, screenshots := [] }

/-- Concrete stored row, for C9. -/
def rowC9 : GameRow :=
  { id := 3, game_name := "Kept", filename := "Kept (Japan).sfc",
    platform := "SNES", group_name := "No-Intro", region := "Japan",
    size := "1 MB", download_url := "https:files/kept.sfc",
    tags := ["Japan"], description := none, rating := none,
    release_date := none, developer := none, publisher := none,
    genre := none, images := [], created_at := 50 }

theorem grabContent_shrink (s : List Char) :
    ∀ acc content rest', grabContent s acc = some (content, rest') →
      rest'.length < s.length := by
  induction s with
  | nil => intro acc content rest' h; simp [grabContent] at h
  | cons c rest ih =>
    intro acc content rest' h
    simp only [grabContent] at h
    by_cases hc : isCloseB c = true
    · simp only [hc, if_true, Option.some.injEq, Prod.mk.injEq] at h
      simp [← h.2]
    · by_cases hd : isDotB c = true
      · simp only [hc, hd, if_false, if_true] at h
        have := ih (c :: acc) content rest' h
        simp
        omega
      · simp [hc, hd] at h

theorem findTagMatch_shrink (s : List Char) :
    ∀ content rest', findTagMatch s = some (content, rest') →
      rest'.length < s.length := by
  induction s with
  | nil => intro content rest' h; simp [findTagMatch] at h
  | cons c rest ih =>
    intro content rest' h
    simp only [findTagMatch] at h
    by_cases ho : isOpenB c = true
    · simp only [ho, if_true] at h
      cases hg : grabContent rest [] with
      | none => simp only [hg] at h
                have := ih content rest' h
                simp; omega
      | some p =>
        obtain ⟨con, re⟩ := p
        simp only [hg, Option.some.injEq, Prod.mk.injEq] at h
        have := grabContent_shrink rest [] con re hg
        simp [← h.2]
        omega
    · simp only [ho, if_false] at h
      have := ih content rest' h
      simp; omega

theorem parseLoopF_fst (fuel : Nat) :
    ∀ s region, (parseLoopF fuel s region).1 = scanTagsF fuel s := by
  induction fuel with
  | zero => intro s region; rfl
  | succ fuel ih =>
    intro s region
    simp only [parseLoopF, scanTagsF]
    cases findTagMatch s with
    | none => rfl
    | some p => simp only [ih]

theorem isRegionTagB_ne_nil {t : List Char} (h : isRegionTagB t = true) : t ≠ [] := by
  intro he
  subst he
  exact absurd h (by decide)

theorem parseLoopF_snd (fuel : Nat) :
    ∀ s region, (parseLoopF fuel s region).2 =
      if region = [] then ((scanTagsF fuel s).find? isRegionTagB).getD []
      else region := by
  induction fuel with
  | zero =>
    intro s region
    by_cases h : region = [] <;> simp [parseLoopF, scanTagsF, h]
  | succ fuel ih =>
    intro s region
    simp only [parseLoopF, scanTagsF]
    cases findTagMatch s with
    | none =>
      by_cases h : region = [] <;> simp [h]
    | some p =>
      obtain ⟨content, rest⟩ := p
      simp only [ih]
      by_cases h : region = []
      · simp only [h, if_true]
        by_cases hr : isRegionTagB (jsTrim content) = true
        · simp [hr, List.find?, isRegionTagB_ne_nil hr]
        · simp only [hr, if_false, if_pos rfl]
          simp [List.find?, hr]
      · simp [h]

theorem splitBase_no_bracket (s : List Char) :
    '(' ∉ splitBase s ∧ '[' ∉ splitBase s := by
  induction s with
  | nil => simp [splitBase]
  | cons c rest ih =>
    simp only [splitBase]
    by_cases hb : c = '['
    · simp [hb]
    · by_cases hw : wsThenParen (c :: rest) = true
      · simp [hb, hw]
      · have hp : c ≠ '(' := by
          intro he
          exact hw (by simp [wsThenParen, he])
        simp only [hb, hw, if_false, Bool.false_eq_true]
        constructor
        · intro hm
          rcases List.mem_cons.mp hm with h1 | h2
          · exact hp h1.symm
          · exact ih.1 h2
        · intro hm
          rcases List.mem_cons.mp hm with h1 | h2
          · exact hb h1.symm
          · exact ih.2 h2

theorem mem_of_mem_jsTrim {x : Char} {s : List Char} (h : x ∈ jsTrim s) : x ∈ s := by
  unfold jsTrim at h
  rw [List.mem_reverse] at h
  have h1 := (List.dropWhile_sublist (l := (s.dropWhile isWsJs).reverse) isWsJs).mem h
  rw [List.mem_reverse] at h1
  exact (List.dropWhile_sublist isWsJs).mem h1

/-- C3 (counterexample): the claim fails on the concrete filename
`Game ( USA].nes`.  It contains no matching `(…)` or `[…]` pair — the
name holds an unclosed `(` and an unopened `]` — so under the claim the
tag list would be empty, but `parseFilename` matches the mixed pair
`( USA]` and produces the (trimmed) tag `USA`. -/
theorem c3_claim_counterexample :
    ¬ ((parseFilename ("Game ( USA].nes".data)).tags =
         claimTags (stripExt ("Game ( USA].nes".data)) ∧
       '(' ∉ (parseFilename ("Game ( USA].nes".data)).base_name ∧
       '[' ∉ (parseFilename ("Game ( USA].nes".data)).base_name) := by
  decide

/-- C3 (amended): for every filename, `parseFilename(F).tags` is the
ordered list of the TRIMMED substrings each enclosed between an opening
`(` or `[` and the nearest following closing `)` or `]` — the closer need
not match the opener's kind and the enclosed text may not span a line
terminator — computed on the name with the extension stripped; and
`parseFilename(F).base_name` contains neither `(` nor `[`. -/
theorem c3_tags_amended (F : List Char) :
    (parseFilename F).tags = scanTags (stripExt F) ∧
    '(' ∉ (parseFilename F).base_name ∧
    '[' ∉ (parseFilename F).base_name := by
  refine ⟨?_, ?_, ?_⟩
  · show (parseLoopF ((stripExt F).length + 1) (stripExt F) []).1 = _
    exact parseLoopF_fst _ _ _
  · intro h
    exact (splitBase_no_bracket (stripExt F)).1 (mem_of_mem_jsTrim h)
  · intro h
    exact (splitBase_no_bracket (stripExt F)).2 (mem_of_mem_jsTrim h)

theorem find_getD_ne_nil_iff (ts : List (List Char)) :
    ((ts.find? isRegionTagB).getD [] ≠ [] ↔ ∃ t ∈ ts, isRegionTagB t = true) ∧
    (∀ t, ts.find? isRegionTagB = some t → t ≠ []) := by
  constructor
  · constructor
    · intro h
      cases hf : ts.find? isRegionTagB with
      | none => rw [hf] at h; simp at h
      | some t =>
        exact ⟨t, List.mem_of_find?_eq_some hf, List.find?_some hf⟩
    · rintro ⟨t, ht, hp⟩
      cases hf : ts.find? isRegionTagB with
      | none =>
        exact absurd hp (by simpa using List.find?_eq_none.mp hf t ht)
      | some u =>
        have hu : isRegionTagB u = true := List.find?_some hf
        simpa [hf] using isRegionTagB_ne_nil hu
  · intro t hf
    exact isRegionTagB_ne_nil (List.find?_some hf)

/-- C4: `parseFilename(F).region` is non-empty exactly when some extracted
tag is region-classified (at least half of its `,`/`+`-separated, trimmed,
lowercased pieces lie in the 28-entry region vocabulary), and the region
always equals the FIRST such tag — captured by `List.find?`, so later
region-classified tags can never overwrite it. -/
theorem c4_region_first_classified (F : List Char) :
    REGIONS.length = 28 ∧
    ((parseFilename F).region ≠ [] ↔
      ∃ t ∈ (parseFilename F).tags, isRegionTagB t = true) ∧
    (parseFilename F).region = ((parseFilename F).tags.find? isRegionTagB).getD [] := by
  have htags : (parseFilename F).tags = scanTagsF ((stripExt F).length + 1) (stripExt F) :=
    parseLoopF_fst _ _ _
  have hreg : (parseFilename F).region =
      ((scanTagsF ((stripExt F).length + 1) (stripExt F)).find? isRegionTagB).getD [] := by
    show (parseLoopF ((stripExt F).length + 1) (stripExt F) []).2 = _
    rw [parseLoopF_snd]
    simp
  refine ⟨by decide, ?_, ?_⟩
  · rw [hreg, htags]
    exact (find_getD_ne_nil_iff _).1
  · rw [hreg, htags]

/-- C5 (counterexample): the claim's iff fails at the empty filename.  The
guard `if (!filename) return false` declares the empty filename ineligible
although no vocabulary term makes any of the three conditions hold on it. -/
theorem c5_claim_counterexample :
    isGameForIGDB termsC5 [] = false ∧ ¬ claimIneligible termsC5 [] := by
  constructor
  · decide
  · rintro ⟨t, ht, hc⟩
    have he : t = "manual".data := by simpa [termsC5] using ht
    subst he
    revert hc
    decide

/-- C5 (amended): `isGameForIGDB` declares a filename ineligible for
enrichment iff the filename is empty (the JavaScript falsiness guard) or,
after lowercasing, some term of the (lowercased) non-game vocabulary is
the extension (`.<term>` suffix), appears as a `(<term>)` or `[<term>]`
tag, or ends the filename after a space; otherwise the filename is
eligible. -/
theorem c5_eligibility_amended (terms : List (List Char)) (F : List Char) :
    isGameForIGDB terms F = false ↔ (F = [] ∨ claimIneligible terms F) := by
  by_cases hF : F = []
  · subst hF
    simp [isGameForIGDB]
  · rw [isGameForIGDB, if_neg hF]
    simp only [claimIneligible, hF, false_or, Bool.not_eq_false',
      List.any_eq_true, Bool.or_eq_true, or_assoc]

/-- C1: evaluation at the failing input.  In incremental mode, a
`batchUpsert`-returned row whose `description` is the empty-string
"enrichment attempted, provider had no hit" sentinel — which is non-null —
IS pushed onto the enrichment queue by the flush decision, because the
JavaScript test `!row.description` is also true for the empty string.
This contradicts the claim (and the code's own comment "mark enriched even
on miss", pipeline.js line 335): the sentinel write is defeated and the
provider is asked again about the record on every incremental re-run. -/
theorem c1_sentinel_row_reenriched :
    rowC1.description ≠ none ∧
    shouldEnrich termsC1 ("incremental") rowC1 = true ∧
    (rowC1.id, rowC1.game_name) ∈ (flushPartition termsC1 ("incremental") [rowC1]).1 := by
  refine ⟨by decide, by decide, by decide⟩

theorem mem_upsertOne_of_ne {st : List GameRow × Nat} {now : Nat}
    {g : GameRecord} {r : GameRow} (hr : r ∈ st.1)
    (hne : r.download_url ≠ g.download_url) : r ∈ (upsertOne st now g).1 := by
  unfold upsertOne
  by_cases h : st.1.any (fun x => decide (x.download_url = g.download_url)) = true
  · simp only [h, if_true]
    have heq : (if r.download_url = g.download_url then applyConflictUpdate r g else r) = r :=
      if_neg hne
    exact heq ▸ List.mem_map_of_mem _ hr
  · simp only [h, if_false, Bool.false_eq_true]
    exact List.mem_append_left _ hr

theorem mem_batchUpsert_of_not_conflicting {now : Nat} {r : GameRow} :
    ∀ {B : List GameRecord} {st : List GameRow × Nat}, r ∈ st.1 →
      r.download_url ∉ B.map (fun x => x.download_url) →
      r ∈ (batchUpsert st now B).1 := by
  intro B
  induction B with
  | nil =>
    intro st hr _
    simpa [batchUpsert] using hr
  | cons b B ih =>
    intro st hr hn
    simp only [List.map_cons, List.mem_cons, not_or] at hn
    simp only [batchUpsert]
    exact ih (mem_upsertOne_of_ne hr hn.1) hn.2

/-- C2: in every batch whose records carry pairwise distinct
`download_url`s (the precondition Postgres enforces on a single
`INSERT ... ON CONFLICT DO UPDATE` statement), a record conflicting with
an existing row updates exactly `game_name`, `platform`, `group_name`,
`region`, `size` and `tags` of that row, while `id`, `created_at`,
`filename` and every enrichment field (`description`, `rating`,
`release_date`, `developer`, `publisher`, `genre`, `images`) keep their
previous values. -/
theorem c2_conflict_preserves_enrichment
    (T : List GameRow) (B : List GameRecord) (n now : Nat)
    (r : GameRow) (g : GameRecord)
    (hB : (B.map (fun x => x.download_url)).Nodup)
    (hr : r ∈ T) (hg : g ∈ B) (hurl : r.download_url = g.download_url) :
    ∃ r' ∈ (batchUpsert (T, n) now B).1,
      r'.download_url = r.download_url ∧
      r'.id = r.id ∧ r'.created_at = r.created_at ∧ r'.filename = r.filename ∧
      r'.description = r.description ∧ r'.rating = r.rating ∧
      r'.release_date = r.release_date ∧ r'.developer = r.developer ∧
      r'.publisher = r.publisher ∧ r'.genre = r.genre ∧ r'.images = r.images ∧
      r'.game_name = g.game_name ∧ r'.platform = g.platform ∧
      r'.group_name = g.group_name ∧ r'.region = g.region ∧
      r'.size = g.size ∧ r'.tags = g.tags := by
  induction B generalizing T n with
  | nil => cases hg
  | cons b B ih =>
    simp only [batchUpsert]
    rcases List.mem_cons.mp hg with hgb | hgB
    · subst hgb
      have hany : T.any (fun x => decide (x.download_url = g.download_url)) = true :=
        List.any_eq_true.mpr ⟨r, hr, by simp [hurl]⟩
      have hmem : applyConflictUpdate r g ∈ (upsertOne (T, n) now g).1 := by
        unfold upsertOne
        simp only [hany, if_true]
        have := List.mem_map_of_mem
          (fun x => if x.download_url = g.download_url then applyConflictUpdate x g else x) hr
        simpa [hurl] using this
      have hnot : (applyConflictUpdate r g).download_url ∉
          B.map (fun x => x.download_url) := by
        have hhead : g.download_url ∉ B.map (fun x => x.download_url) :=
          (List.nodup_cons.mp hB).1
        simpa [applyConflictUpdate, hurl] using hhead
      refine ⟨applyConflictUpdate r g,
        mem_batchUpsert_of_not_conflicting hmem hnot, ?_⟩
      simp [applyConflictUpdate]
    · have hne : r.download_url ≠ b.download_url := by
        intro he
        have hb : b.download_url ∉ B.map (fun x => x.download_url) :=
          (List.nodup_cons.mp hB).1
        have : g.download_url ∈ B.map (fun x => x.download_url) :=
          List.mem_map_of_mem _ hgB
        rw [hurl] at he
        exact hb (he ▸ this)
      have h1 : r ∈ (upsertOne (T, n) now b).1 :=
        mem_upsertOne_of_ne hr hne
      have := ih (upsertOne (T, n) now b).1 (upsertOne (T, n) now b).2
        (List.nodup_cons.mp hB).2 h1 hgB
      simpa using this

theorem c2_witness :
    (([recC2].map (fun x => x.download_url)).Nodup ∧ rowC2 ∈ [rowC2] ∧
      recC2 ∈ [recC2] ∧ rowC2.download_url = recC2.download_url) ∧
    (∃ r' ∈ (batchUpsert ([rowC2], 8) 100 [recC2]).1,
      r'.download_url = rowC2.download_url ∧
      r'.id = rowC2.id ∧ r'.created_at = rowC2.created_at ∧
      r'.filename = rowC2.filename ∧
      r'.description = rowC2.description ∧ r'.rating = rowC2.rating ∧
      r'.release_date = rowC2.release_date ∧ r'.developer = rowC2.developer ∧
      r'.publisher = rowC2.publisher ∧ r'.genre = rowC2.genre ∧
      r'.images = rowC2.images ∧
      r'.game_name = recC2.game_name ∧ r'.platform = recC2.platform ∧
      r'.group_name = recC2.group_name ∧ r'.region = recC2.region ∧
      r'.size = recC2.size ∧ r'.tags = recC2.tags) :=
  ⟨⟨by decide, List.mem_singleton.mpr rfl, List.mem_singleton.mpr rfl, rfl⟩,
   c2_conflict_preserves_enrichment [rowC2] [recC2] 8 100 rowC2 recC2
     (by decide) (List.mem_singleton.mpr rfl) (List.mem_singleton.mpr rfl) rfl⟩

/-- C6: if `stopPipeline` sets the cancelled flag during a run (it does so
exactly when `status = running`), then when the joined crawler/worker
tasks complete without an uncaught exception the run terminates with
status `idle` — in particular not `error` and not `done` — and `endedAt`
is recorded.  Cancellation by itself never produces the `error` status:
that branch is reserved for an exception escaping the joined tasks. -/
theorem c6_cancelled_run_ends_idle
    (s : PipelineSt) (res : Except String Unit) (now : String)
    (hrun : s.status = Status.running) (hok : res = Except.ok ()) :
    (finishRun (stopPipeline s) res now).status = Status.idle ∧
    (finishRun (stopPipeline s) res now).status ≠ Status.error ∧
    (finishRun (stopPipeline s) res now).status ≠ Status.done ∧
    (finishRun (stopPipeline s) res now).endedAt = some now := by
  subst hok
  simp [stopPipeline, finishRun, hrun]

theorem c6_witness :
    (stC6.status = Status.running ∧
      (Except.ok () : Except String Unit) = Except.ok ()) ∧
    ((finishRun (stopPipeline stC6) (Except.ok ()) "12:00:00").status = Status.idle ∧
     (finishRun (stopPipeline stC6) (Except.ok ()) "12:00:00").status ≠ Status.error ∧
     (finishRun (stopPipeline stC6) (Except.ok ()) "12:00:00").status ≠ Status.done ∧
     (finishRun (stopPipeline stC6) (Except.ok ()) "12:00:00").endedAt = some ("12:00:00")) :=
  ⟨⟨rfl, rfl⟩, c6_cancelled_run_ends_idle stC6 (Except.ok ()) "12:00:00" rfl rfl⟩

/-- C7: `applyConfig` called with a configuration whose merged cron
expression is non-empty and invalid throws synchronously and mutates
nothing: the call returns an error, the persisted scheduler configuration
and the currently scheduled job are exactly as before the call. -/
theorem c7_invalid_cron_no_mutation
    (valid : String → Bool) (patch : ConfigPatch) (st : SchedState)
    (h1 : (mergeConfig patch).expression ≠ "")
    (h2 : valid (mergeConfig patch).expression = false) :
    (applyConfig valid patch st).2 = st ∧
    (applyConfig valid patch st).2.savedConfig = st.savedConfig ∧
    (applyConfig valid patch st).2.currentTask = st.currentTask ∧
    ∃ e, (applyConfig valid patch st).1 = Except.error e := by
  unfold applyConfig
  simp [h1, h2]

theorem c7_witness :
    ((mergeConfig patchC7).expression ≠ "" ∧
      validC7 (mergeConfig patchC7).expression = false) ∧
    ((applyConfig validC7 patchC7 stC7).2 = stC7 ∧
     (applyConfig validC7 patchC7 stC7).2.savedConfig = stC7.savedConfig ∧
     (applyConfig validC7 patchC7 stC7).2.currentTask = stC7.currentTask ∧
     ∃ e, (applyConfig validC7 patchC7 stC7).1 = Except.error e) :=
  ⟨⟨by decide, rfl⟩,
   c7_invalid_cron_no_mutation validC7 patchC7 stC7 (by decide) rfl⟩

/-- C9: in incremental mode, when the crawl saw no file URLs at all, the
stale-pruning step is skipped entirely — no `SELECT download_url` is
issued, no `DELETE` is issued, and the games table is left unchanged
(instead of every stored URL being computed stale and pruned). -/
theorem c9_empty_seen_skips_prune
    (mode : String) (seenUrls : List String) (cancelled : Bool)
    (table : List GameRow)
    (hmode : mode = "incremental") (hseen : seenUrls = []) :
    pruneStale mode seenUrls cancelled table = (table, []) := by
  subst hmode
  subst hseen
  simp [pruneStale]

theorem c9_witness :
    (("incremental" : String) = "incremental" ∧ ([] : List String) = []) ∧
    pruneStale ("incremental") [] false [rowC9] = ([rowC9], []) :=
  ⟨⟨rfl, rfl⟩, c9_empty_seen_skips_prune ("incremental") [] false [rowC9] rfl rfl⟩

/-- C10: `POST /admin/pipeline/start` never rejects a request over its
`mode` value.  When no run is in progress, every request body — absent,
missing the field, or carrying any string — yields a started run; the run
is started in mode `clean` exactly when `req.body?.mode` is the string
`clean`, and every other value is coerced to `incremental`. -/
theorem c10_start_mode_coercion (body : Option StartBody) :
    (∃ m, pipelineStartRoute false body = StartResponse.started m) ∧
    (pipelineStartRoute false body = StartResponse.started ("clean") ↔
      reqMode body = some ("clean")) ∧
    (reqMode body ≠ some ("clean") →
      pipelineStartRoute false body = StartResponse.started ("incremental")) := by
  by_cases h : reqMode body = some ("clean")
  · refine ⟨⟨"clean", ?_⟩, ?_, ?_⟩
    · simp [pipelineStartRoute, h]
    · simp [pipelineStartRoute, h]
    · intro hne
      exact absurd h hne
  · refine ⟨⟨"incremental", ?_⟩, ?_, ?_⟩
    · simp [pipelineStartRoute, h]
    · simp [pipelineStartRoute, h]
    · intro _
      simp [pipelineStartRoute, h]

theorem round2_bounds (q : ℚ) (hq0 : 0 ≤ q) (hq5 : q ≤ 5) :
    0 ≤ round2 q ∧ round2 q ≤ 5 ∧
    (∃ k : ℤ, round2 q = (k : ℚ) / 100) ∧ |round2 q - q| ≤ 1 / 200 := by
  have h4 : ((⌊q * 100 + 1 / 2⌋ : ℤ) : ℚ) ≤ q * 100 + 1 / 2 := Int.floor_le _
  have h5 : q * 100 + 1 / 2 < ((⌊q * 100 + 1 / 2⌋ : ℤ) : ℚ) + 1 :=
    Int.lt_floor_add_one _
  have hkey : round2 q = ((⌊q * 100 + 1 / 2⌋ : ℤ) : ℚ) / 100 := rfl
  have hm0 : (0 : ℤ) ≤ ⌊q * 100 + 1 / 2⌋ := by
    have : ((-1 : ℤ) : ℚ) < ((⌊q * 100 + 1 / 2⌋ : ℤ) : ℚ) := by
      push_cast
      linarith
    have := (by exact_mod_cast this : (-1 : ℤ) < ⌊q * 100 + 1 / 2⌋)
    omega
  have hm500 : (⌊q * 100 + 1 / 2⌋ : ℤ) ≤ 500 := by
    have : ((⌊q * 100 + 1 / 2⌋ : ℤ) : ℚ) < ((501 : ℤ) : ℚ) := by
      push_cast
      linarith
    have := (by exact_mod_cast this : (⌊q * 100 + 1 / 2⌋ : ℤ) < 501)
    omega
  refine ⟨?_, ?_, ⟨⌊q * 100 + 1 / 2⌋, hkey⟩, ?_⟩
  · rw [hkey]
    have : (0 : ℚ) ≤ ((⌊q * 100 + 1 / 2⌋ : ℤ) : ℚ) := by exact_mod_cast hm0
    positivity
  · rw [hkey]
    have : ((⌊q * 100 + 1 / 2⌋ : ℤ) : ℚ) ≤ 500 := by exact_mod_cast hm500
    linarith
  · rw [hkey]
    rw [abs_le]
    constructor <;> linarith

/-- C8: for every provider hit carrying a rating `r` on the provider's
0–100 scale, the normalized catalog rating equals `r / 20` rounded to two
decimal places (nearest multiple of 1/100, within 1/200 of the exact
quotient) and lies in the range 0.0–5.0. -/
theorem c8_rating_normalization (d : IGDBHit) (r : ℚ)
    (h1 : d.rating = some r) (h2 : 0 ≤ r) (h3 : r ≤ 100) :
    (extractIGDB d).rating = some (round2 (r / 20)) ∧
    0 ≤ round2 (r / 20) ∧ round2 (r / 20) ≤ 5 ∧
    (∃ k : ℤ, round2 (r / 20) = (k : ℚ) / 100) ∧
    |round2 (r / 20) - r / 20| ≤ 1 / 200 := by
  have hq0 : 0 ≤ r / 20 := by positivity
  have hq5 : r / 20 ≤ 5 := by linarith
  have hb := round2_bounds (r / 20) hq0 hq5
  exact ⟨by simp [extractIGDB, h1], hb.1, hb.2.1, hb.2.2.1, hb.2.2.2⟩

theorem c8_witness :
    (hitC8.rating = some 83 ∧ (0 : ℚ) ≤ 83 ∧ (83 : ℚ) ≤ 100) ∧
    ((extractIGDB hitC8).rating = some (round2 (83 / 20)) ∧
     0 ≤ round2 ((83 : ℚ) / 20) ∧ round2 ((83 : ℚ) / 20) ≤ 5 ∧
     (∃ k : ℤ, round2 ((83 : ℚ) / 20) = (k : ℚ) / 100) ∧
     |round2 ((83 : ℚ) / 20) - 83 / 20| ≤ 1 / 200) :=
  ⟨⟨rfl, by norm_num, by norm_num⟩,
   c8_rating_normalization hitC8 83 rfl (by norm_num) (by norm_num)⟩

theorem c3_witness :
    (parseFilename ("Super Mario Bros. (USA).nes".data)).tags =
      scanTags (stripExt ("Super Mario Bros. (USA).nes".data)) ∧
    '(' ∉ (parseFilename ("Super Mario Bros. (USA).nes".data)).base_name ∧
    '[' ∉ (parseFilename ("Super Mario Bros. (USA).nes".data)).base_name :=
  c3_tags_amended ("Super Mario Bros. (USA).nes".data)

theorem c4_witness :
    REGIONS.length = 28 ∧
    ((parseFilename ("Mega Man (USA, Europe).zip".data)).region ≠ [] ↔
      ∃ t ∈ (parseFilename ("Mega Man (USA, Europe).zip".data)).tags,
        isRegionTagB t = true) ∧
    (parseFilename ("Mega Man (USA, Europe).zip".data)).region =
      ((parseFilename ("Mega Man (USA, Europe).zip".data)).tags.find?
        isRegionTagB).getD [] :=
  c4_region_first_classified ("Mega Man (USA, Europe).zip".data)

theorem c5_witness :
    isGameForIGDB termsC5 ("Final Fantasy VII (Manual).pdf".data) = false ↔
    ("Final Fantasy VII (Manual).pdf".data = [] ∨
      claimIneligible termsC5 ("Final Fantasy VII (Manual).pdf".data)) :=
  c5_eligibility_amended termsC5 ("Final Fantasy VII (Manual).pdf".data)

theorem c10_witness :
    (∃ m, pipelineStartRoute false (some { mode := some ("clean") }) =
      StartResponse.started m) ∧
    (pipelineStartRoute false (some { mode := some ("clean") }) =
        StartResponse.started ("clean") ↔
      reqMode (some { mode := some ("clean") }) = some ("clean")) ∧
    (reqMode (some { mode := some ("clean") }) ≠ some ("clean") →
      pipelineStartRoute false (some { mode := some ("clean") }) =
        StartResponse.started ("incremental")) :=
  c10_start_mode_coercion (some { mode := some ("clean") })
